import Mathlib

/-!
# Calibration and steering decision engine of `template-opencv.cpp`

A shallow embedding of the control logic of `main` in
`src/src/template-opencv.cpp`, followed by theorems about it.

Modelling conventions.

* The image pipeline (`cvtColor`, `inRange`, `GaussianBlur`, `dilate`,
  `erode`, `findContours`, `contourArea`) is an external collaborator.  A
  frame is represented by the three lists of contour areas that the pipeline
  yields for it, in iteration order: yellow in the right region of interest,
  blue in the centre region, yellow in the centre region.
* `float` values (`steeringWheelAngle`, `steeringMin`, `steeringMax`,
  `carTurnR`, `carTurnL`) and the `double` contour areas are idealised as
  exact rationals; rounding is outside the model.
* `int frameCounter` is a 32-bit machine integer; `frameCounter++` is
  modelled with two's-complement wrap-around.
* The `while (od4.isRunning())` loop runs once per delivered frame, so a run
  is a fold of the loop body over a finite list of frames.
-/

namespace TemplateOpencv

/-! ## Constants (lines 108–122 of the source) -/

/-- Source: `int frameSampleSize = 5`. -/
def frameSampleSize : Int := 5

/-- Source: `int identifiedShape = 60`, compared against a `double` area. -/
def identifiedShape : ℚ := 60

/-- Source: `float steeringMax = 0.3`. -/
def steeringMax : ℚ := 3 / 10

/-- Source: `float steeringMin = -0.3`. -/
def steeringMin : ℚ := -(3 / 10)

/-- Source: `float carTurnR = 0.025`. -/
def carTurnR : ℚ := 1 / 40

/-- Source: `float carTurnL = -0.025`. -/
def carTurnL : ℚ := -(1 / 40)

/-! ## Data model -/

/-- One camera frame, seen through the contour extractor: the areas of the
contours found in each region of interest, in iteration order. -/
structure Frame where
  /-- Areas of the yellow contours in the right region (lines 168–187). -/
  rightYellow : List ℚ
  /-- Areas of the blue contours in the centre region (lines 219–238). -/
  centreBlue : List ℚ
  /-- Areas of the yellow contours in the centre region (lines 297–310). -/
  centreYellow : List ℚ
deriving Repr, DecidableEq

/-- The variables of `main` that persist across loop iterations. -/
structure State where
  frameCounter : Int
  yellowConeExists : Int
  steeringWheelAngle : ℚ
  carDirection : Int
deriving Repr, DecidableEq

/-- The two directions of travel. -/
inductive Direction where
  | Clockwise
  | CounterClockwise
deriving Repr, DecidableEq

/-- The value of `carDirection` that stands for a direction: `1` for
clockwise, `-1` for counterclockwise (lines 118 and 207). -/
def Direction.code : Direction → Int
  | Direction.Clockwise => 1
  | Direction.CounterClockwise => -1

/-- The other direction. -/
def Direction.opposite : Direction → Direction
  | Direction.Clockwise => Direction.CounterClockwise
  | Direction.CounterClockwise => Direction.Clockwise

/-- State at loop entry (lines 108–118). -/
def initialState : State :=
  { frameCounter := 0, yellowConeExists := 0, steeringWheelAngle := 0, carDirection := -1 }

/-- Two's-complement reduction of an integer to 32 bits. -/
def wrapInt32 (x : Int) : Int := (x + 2147483648) % 4294967296 - 2147483648

/-- A contour is a cone when `contourArea(contours[i]) > identifiedShape`. -/
def isCone (area : ℚ) : Bool := decide (area > identifiedShape)

/-- Whether some contour of the list is a cone. -/
def hasCone (contours : List ℚ) : Bool := contours.any isCone

/-! ## Calibration block (lines 164–213) -/

/-- Body of the calibration `for` loop, on the pair
`(yellowConeExists, carDirection)`. -/
def calibrationBody (acc : Int × Int) (area : ℚ) : Int × Int :=
  if area > identifiedShape then
    let yellowConeExists : Int := 1
    if yellowConeExists = 1 then (yellowConeExists, 1) else (yellowConeExists, acc.2)
  else acc

/-- The calibration `for` loop over the right-region yellow contours. -/
def calibrationLoop (yellowConeExists carDirection : Int) (contours : List ℚ) : Int × Int :=
  contours.foldl calibrationBody (yellowConeExists, carDirection)

/-! ## Steering block (lines 216–370) -/

/-- Body of the blue `for` loop (lines 246–285), on the pair
`(steeringWheelAngle, blueConeCenter)`. -/
def blueBody (carDirection : Int) (acc : ℚ × Int) (area : ℚ) : ℚ × Int :=
  if area > identifiedShape then
    if acc.1 > steeringMin ∧ acc.1 < steeringMax then
      if acc.2 ≠ 1 ∧ carDirection = 1 then (acc.1 - carTurnR, 1)
      else if acc.2 ≠ 1 ∧ carDirection = -1 then (acc.1 - carTurnL, 1)
      else acc
    else (0, 1)
  else acc

/-- The blue `for` loop, entered with `blueConeCenter = 0`. -/
def blueLoop (carDirection : Int) (steeringWheelAngle : ℚ) (contours : List ℚ) : ℚ × Int :=
  contours.foldl (blueBody carDirection) (steeringWheelAngle, 0)

/-- Body of the yellow `for` loop (lines 318–355), on the pair
`(steeringWheelAngle, yellowConeCenter)`. -/
def yellowBody (carDirection : Int) (acc : ℚ × Int) (area : ℚ) : ℚ × Int :=
  if area > identifiedShape then
    if acc.1 > steeringMin ∧ acc.1 < steeringMax then
      if acc.2 ≠ 1 ∧ carDirection = 1 then (acc.1 - carTurnL, 1)
      else if acc.2 ≠ 1 ∧ carDirection = -1 then (acc.1 - carTurnR, 1)
      else acc
    else (0, 1)
  else acc

/-- The yellow `for` loop, entered with `yellowConeCenter = 0`. -/
def yellowLoop (carDirection : Int) (steeringWheelAngle : ℚ) (contours : List ℚ) : ℚ × Int :=
  contours.foldl (yellowBody carDirection) (steeringWheelAngle, 0)

/-- The steering block: the new `steeringWheelAngle` for one frame of the
steering window. -/
def steering (carDirection : Int) (steeringWheelAngle : ℚ) (f : Frame) : ℚ :=
  let blue := blueLoop carDirection steeringWheelAngle f.centreBlue
  let blueConeCenter := blue.2
  if blueConeCenter ≠ 1 then
    let yellow := yellowLoop carDirection blue.1 f.centreYellow
    let yellowConeCenter := yellow.2
    if yellowConeCenter = 0 ∧ blueConeCenter = 0 then 0 else yellow.1
  else blue.1

/-! ## One loop iteration and runs -/

/-- One iteration of the `while` loop (lines 131–416) on frame `f`. -/
def step (s : State) (f : Frame) : State :=
  let frameCounter := wrapInt32 (s.frameCounter + 1)
  let s1 : State := { s with frameCounter := frameCounter }
  let s2 : State :=
    if frameCounter < frameSampleSize then
      let r := calibrationLoop s1.yellowConeExists s1.carDirection f.rightYellow
      { s1 with yellowConeExists := r.1, carDirection := r.2 }
    else s1
  if frameCounter ≥ frameSampleSize then
    { s2 with steeringWheelAngle := steering s2.carDirection s2.steeringWheelAngle f }
  else s2

/-- The loop run over the frames delivered while the session is running. -/
def run (s : State) (frames : List Frame) : State := frames.foldl step s

/-! ## Process entry (lines 33–72 and 416–421) -/

/-- What `main` reads from the command line: how many times each mandatory
key occurs (`commandlineArguments.count`). -/
structure CommandlineArguments where
  cid : Nat
  name : Nat
  width : Nat
  height : Nat
deriving Repr, DecidableEq

/-- Outcome of `main`: the returned `retCode` and, when the `while` loop was
reached, the state it ended in. -/
structure Outcome where
  retCode : Int
  loop : Option State
deriving Repr, DecidableEq

/-- The control skeleton of `main`.  `valid` is the value of
`sharedMemory && sharedMemory->valid()`; `frames` are the frames delivered
while the session is running.  The `std::stoi` conversions are taken to
succeed. -/
def main (args : CommandlineArguments) (valid : Bool) (frames : List Frame) : Outcome :=
  let retCode : Int := 1
  if 0 = args.cid ∨ 0 = args.name ∨ 0 = args.width ∨ 0 = args.height then
    { retCode := retCode, loop := none }
  else
    let loop : Option State := if valid then some (run initialState frames) else none
    let retCode : Int := 0
    { retCode := retCode, loop := loop }

/-! ## Auxiliary definitions used in the proofs -/

/-- The guard `steeringWheelAngle > steeringMin && steeringWheelAngle < steeringMax`. -/
def inBounds (a : ℚ) : Prop := a > steeringMin ∧ a < steeringMax

instance (a : ℚ) : Decidable (inBounds a) := by
  unfold inBounds
  infer_instance

/-- A loop body with the direction test already resolved to its increment
`t`; both colour loops are instances of it. -/
def coneBody (t : ℚ) (acc : ℚ × Int) (area : ℚ) : ℚ × Int :=
  if area > identifiedShape then
    if inBounds acc.1 then
      if acc.2 ≠ 1 then (acc.1 - t, 1) else acc
    else (0, 1)
  else acc

/-- Increment subtracted by the blue loop under a direction. -/
def blueTurn : Direction → ℚ
  | Direction.Clockwise => carTurnR
  | Direction.CounterClockwise => carTurnL

/-- Increment subtracted by the yellow loop under a direction. -/
def yellowTurn : Direction → ℚ
  | Direction.Clockwise => carTurnL
  | Direction.CounterClockwise => carTurnR

/-- Number of cones among the contours of a list. -/
def coneCount (contours : List ℚ) : Nat := (contours.filter isCone).length

/-- Closed form of a colour loop entered with its flag at `0`, as a function
of the number of cones met: the pair `(steeringWheelAngle, flag)` at loop
exit. -/
def coneResult (t a : ℚ) : Nat → ℚ × Int
  | 0 => (a, 0)
  | 1 => if inBounds a then (a - t, 1) else (0, 1)
  | _ + 2 => if inBounds a ∧ inBounds (a - t) then (a - t, 1) else (0, 1)

/-- The state `s` with `carDirection` holding direction `d`. -/
def State.withDirection (s : State) (d : Direction) : State :=
  { s with carDirection := d.code }

/-- A frame whose only contour is one blue cone in the centre region. -/
def blueConeFrame : Frame := { rightYellow := [], centreBlue := [100], centreYellow := [] }

/-- A frame whose only contour is one yellow cone in the right region. -/
def rightConeFrame : Frame := { rightYellow := [100], centreBlue := [], centreYellow := [] }

/-- A frame with three blue cones in the centre region. -/
def threeBlueFrame : Frame :=
  { rightYellow := [], centreBlue := [100, 100, 100], centreYellow := [] }

/-- A state of the steering window: five frames seen, angle `a`, default direction. -/
def windowState (a : ℚ) : State :=
  { frameCounter := 5, yellowConeExists := 0, steeringWheelAngle := a, carDirection := -1 }

/-- Direction reached by the calibration of the first four frames. -/
def calibratedDirection (f1 f2 f3 f4 : Frame) : Int :=
  if (hasCone f1.rightYellow || hasCone f2.rightYellow || hasCone f3.rightYellow
      || hasCone f4.rightYellow) = true then 1 else -1

/-- A frame with one blue and one yellow cone in the centre region. -/
def bothConesFrame : Frame := { rightYellow := [], centreBlue := [100], centreYellow := [100] }

/-- A frame whose only contour is one yellow cone in the centre region. -/
def yellowConeFrame : Frame := { rightYellow := [], centreBlue := [], centreYellow := [100] }

/-- A command line on which every mandatory key occurs once. -/
def presentArguments : CommandlineArguments := { cid := 1, name := 1, width := 1, height := 1 }

/-- The frame without any contour. -/
def emptyFrame : Frame := { rightYellow := [], centreBlue := [], centreYellow := [] }

/-- Four empty calibration frames followed by twelve frames that each hold
one blue cone in the centre region. -/
def twelveBlueFrames : List Frame :=
  [emptyFrame, emptyFrame, emptyFrame, emptyFrame] ++ List.replicate 12 blueConeFrame

/-- The angles that twelve increments of 1/40 away from zero can reach: the
multiples `k / 40` with `-12 ≤ k ≤ 12`. -/
def onGrid (a : ℚ) : Prop := ∃ k : Int, -12 ≤ k ∧ k ≤ 12 ∧ a = k / 40

/-! ## Lemmas on the contour loops -/

theorem blueBody_eq (d : Direction) : blueBody d.code = coneBody (blueTurn d) := by
  funext acc area
  cases d <;> simp [blueBody, coneBody, blueTurn, Direction.code, inBounds]

theorem yellowBody_eq (d : Direction) : yellowBody d.code = coneBody (yellowTurn d) := by
  funext acc area
  cases d <;> simp [yellowBody, coneBody, yellowTurn, Direction.code, inBounds]

theorem yellowTurn_eq (d : Direction) : yellowTurn d = blueTurn d.opposite := by
  cases d <;> rfl

theorem inBounds_zero : inBounds 0 := by
  unfold inBounds steeringMin steeringMax
  constructor <;> norm_num

theorem isCone_iff (area : ℚ) : isCone area = true ↔ area > identifiedShape := by
  simp [isCone]

theorem coneBody_of_not_cone (t : ℚ) (acc : ℚ × Int) (area : ℚ) (h : isCone area = false) :
    coneBody t acc area = acc := by
  have h1 : ¬ area > identifiedShape := by
    intro hc
    rw [(isCone_iff area).mpr hc] at h
    exact Bool.noConfusion h
  simp [coneBody, h1]

theorem coneBody_of_cone (t : ℚ) (acc : ℚ × Int) (area : ℚ) (h : isCone area = true) :
    coneBody t acc area =
      if inBounds acc.1 then (if acc.2 ≠ 1 then (acc.1 - t, 1) else acc) else (0, 1) := by
  have h1 : area > identifiedShape := (isCone_iff area).mp h
  simp [coneBody, h1]

/-- Contours below the threshold do not take part in a loop. -/
theorem foldl_coneBody_filter (t : ℚ) (contours : List ℚ) (acc : ℚ × Int) :
    contours.foldl (coneBody t) acc = (contours.filter isCone).foldl (coneBody t) acc := by
  induction contours generalizing acc with
  | nil => rfl
  | cons x xs ih =>
    cases hx : isCone x with
    | false => simp [List.filter, hx, coneBody_of_not_cone t acc x hx, ih]
    | true => simp [List.filter, hx, ih]

/-- With the flag set and the angle inside the bounds nothing changes any more. -/
theorem foldl_coneBody_flag_inBounds (t a : ℚ) (h : inBounds a) (contours : List ℚ) :
    contours.foldl (coneBody t) (a, 1) = (a, 1) := by
  induction contours with
  | nil => rfl
  | cons x xs ih =>
    have hx : coneBody t (a, 1) x = (a, 1) := by
      simp [coneBody, h]
    simp [List.foldl, hx, ih]

/-- With the flag set and the angle outside the bounds the first cone resets. -/
theorem foldl_coneBody_flag_outside (t a : ℚ) (h : ¬ inBounds a) (x : ℚ) (hx : isCone x = true)
    (contours : List ℚ) :
    (x :: contours).foldl (coneBody t) (a, 1) = (0, 1) := by
  have h1 : coneBody t (a, 1) x = (0, 1) := by
    rw [coneBody_of_cone t (a, 1) x hx]
    simp [h]
  simp [List.foldl, h1, foldl_coneBody_flag_inBounds t 0 inBounds_zero]

/-- A colour loop computes `coneResult`. -/
theorem foldl_coneBody_eq (t a : ℚ) (contours : List ℚ) :
    contours.foldl (coneBody t) (a, 0) = coneResult t a (coneCount contours) := by
  rw [foldl_coneBody_filter]
  unfold coneCount
  have hall : ∀ x ∈ contours.filter isCone, isCone x = true := by
    intro x hx
    exact (List.mem_filter.mp hx).2
  generalize contours.filter isCone = cones at hall
  match cones, hall with
  | [], _ => rfl
  | x :: rest, hall =>
    have hx : isCone x = true := hall x (List.mem_cons_self x rest)
    have h1 : coneBody t (a, 0) x = if inBounds a then (a - t, 1) else (0, 1) := by
      rw [coneBody_of_cone t (a, 0) x hx]
      simp
    by_cases ha : inBounds a
    · rw [if_pos ha] at h1
      match rest, hall with
      | [], _ => simp [List.foldl, h1, coneResult, ha]
      | y :: more, hall =>
        have hy : isCone y = true :=
          hall y (List.mem_cons_of_mem x (List.mem_cons_self y more))
        by_cases hb : inBounds (a - t)
        · have h2 := foldl_coneBody_flag_inBounds t (a - t) hb (y :: more)
          simp only [List.foldl_cons, h1, List.length_cons, coneResult, ha, hb, and_self, if_true]
          simpa using h2
        · have h2 := foldl_coneBody_flag_outside t (a - t) hb y hy more
          simp only [List.foldl_cons, h1, List.length_cons, coneResult, ha, hb, and_false, if_false]
          simpa using h2
    · rw [if_neg ha] at h1
      have h2 := foldl_coneBody_flag_inBounds t 0 inBounds_zero rest
      match rest with
      | [] => simp [List.foldl, h1, coneResult, ha]
      | y :: more =>
        simp only [List.foldl_cons, h1, List.length_cons, coneResult, ha, false_and, if_false]
        simpa using h2

theorem blueLoop_eq (d : Direction) (a : ℚ) (contours : List ℚ) :
    blueLoop d.code a contours = coneResult (blueTurn d) a (coneCount contours) := by
  unfold blueLoop
  rw [blueBody_eq, foldl_coneBody_eq]

theorem yellowLoop_eq (d : Direction) (a : ℚ) (contours : List ℚ) :
    yellowLoop d.code a contours = coneResult (yellowTurn d) a (coneCount contours) := by
  unfold yellowLoop
  rw [yellowBody_eq, foldl_coneBody_eq]

theorem coneCount_eq_zero_iff (contours : List ℚ) :
    coneCount contours = 0 ↔ hasCone contours = false := by
  unfold coneCount hasCone
  induction contours with
  | nil => simp
  | cons x xs ih =>
    cases hx : isCone x <;> simp [List.filter, hx]

/-- The flag at loop exit is `1` exactly when a cone was met. -/
theorem coneResult_flag (t a : ℚ) (n : Nat) :
    (coneResult t a n).2 = if n = 0 then 0 else 1 := by
  match n with
  | 0 => rfl
  | 1 =>
    by_cases h : inBounds a <;> simp [coneResult, h]
  | k + 2 =>
    by_cases h : inBounds a ∧ inBounds (a - t) <;> simp [coneResult, h]

/-- Closed form of the steering block. -/
theorem steering_eq (d : Direction) (a : ℚ) (f : Frame) :
    steering d.code a f =
      if coneCount f.centreBlue = 0 then
        (if coneCount f.centreYellow = 0 then 0
          else (coneResult (yellowTurn d) a (coneCount f.centreYellow)).1)
      else (coneResult (blueTurn d) a (coneCount f.centreBlue)).1 := by
  unfold steering
  simp only [blueLoop_eq, yellowLoop_eq, coneResult_flag]
  by_cases hb : coneCount f.centreBlue = 0
  · by_cases hy : coneCount f.centreYellow = 0
    · simp [hb, hy]
    · simp [hb, hy, coneResult]
  · simp [hb]

/-! ## Lemmas on the loop iteration -/

theorem calibrationLoop_eq (y d : Int) (contours : List ℚ) :
    calibrationLoop y d contours = if hasCone contours = true then (1, 1) else (y, d) := by
  unfold calibrationLoop hasCone
  induction contours generalizing y d with
  | nil => simp
  | cons x xs ih =>
    by_cases hx : x > identifiedShape
    · have h1 : isCone x = true := (isCone_iff x).mpr hx
      have hb : calibrationBody (y, d) x = (1, 1) := by
        unfold calibrationBody
        rw [if_pos hx]
        rfl
      have h2 : xs.foldl calibrationBody (1, 1) = (1, 1) := by
        rw [ih]
        split <;> rfl
      rw [List.foldl_cons, hb, h2, List.any_cons, h1, Bool.true_or, if_pos rfl]
    · have h1 : isCone x = false := by
        cases hc : isCone x with
        | false => rfl
        | true => exact absurd ((isCone_iff x).mp hc) hx
      simp [calibrationBody, hx, h1, ih y d]

/-- An iteration of the steering window runs the steering block only. -/
theorem step_of_window (s : State) (f : Frame)
    (hw : frameSampleSize ≤ wrapInt32 (s.frameCounter + 1)) :
    step s f =
      { frameCounter := wrapInt32 (s.frameCounter + 1),
        yellowConeExists := s.yellowConeExists,
        steeringWheelAngle := steering s.carDirection s.steeringWheelAngle f,
        carDirection := s.carDirection } := by
  have h1 : ¬ wrapInt32 (s.frameCounter + 1) < frameSampleSize := not_lt.mpr hw
  simp [step, h1, hw]

/-- An iteration of the calibration window runs the calibration block only. -/
theorem step_of_calibration (s : State) (f : Frame)
    (hc : wrapInt32 (s.frameCounter + 1) < frameSampleSize) :
    step s f =
      { frameCounter := wrapInt32 (s.frameCounter + 1),
        yellowConeExists := if hasCone f.rightYellow = true then 1 else s.yellowConeExists,
        steeringWheelAngle := s.steeringWheelAngle,
        carDirection := if hasCone f.rightYellow = true then 1 else s.carDirection } := by
  have h1 : ¬ frameSampleSize ≤ wrapInt32 (s.frameCounter + 1) := not_le.mpr hc
  by_cases hr : hasCone f.rightYellow = true <;>
    simp [step, h1, hc, calibrationLoop_eq, hr]

theorem step_calibrating (c y : Int) (a : ℚ) (d : Int) (f : Frame)
    (hc : wrapInt32 (c + 1) < frameSampleSize) :
    step { frameCounter := c, yellowConeExists := y, steeringWheelAngle := a, carDirection := d } f =
      { frameCounter := wrapInt32 (c + 1),
        yellowConeExists := if hasCone f.rightYellow = true then 1 else y,
        steeringWheelAngle := a,
        carDirection := if hasCone f.rightYellow = true then 1 else d } :=
  step_of_calibration _ f hc

theorem step_steering (c y : Int) (a : ℚ) (d : Int) (f : Frame)
    (hw : frameSampleSize ≤ wrapInt32 (c + 1)) :
    step { frameCounter := c, yellowConeExists := y, steeringWheelAngle := a, carDirection := d } f =
      { frameCounter := wrapInt32 (c + 1),
        yellowConeExists := y,
        steeringWheelAngle := steering d a f,
        carDirection := d } :=
  step_of_window _ f hw

/-- The first four iterations calibrate; the right region of later frames is
not looked at. -/
theorem run_four (f1 f2 f3 f4 : Frame) :
    run initialState [f1, f2, f3, f4] =
      { frameCounter := 4,
        yellowConeExists := if calibratedDirection f1 f2 f3 f4 = 1 then 1 else 0,
        steeringWheelAngle := 0,
        carDirection := calibratedDirection f1 f2 f3 f4 } := by
  have c1 : wrapInt32 ((0 : Int) + 1) = 1 := by decide
  have c2 : wrapInt32 ((1 : Int) + 1) = 2 := by decide
  have c3 : wrapInt32 ((2 : Int) + 1) = 3 := by decide
  have c4 : wrapInt32 ((3 : Int) + 1) = 4 := by decide
  simp only [run, List.foldl_cons, List.foldl_nil, initialState]
  rw [step_calibrating 0 _ _ _ f1 (by decide)]
  simp only [c1]
  rw [step_calibrating 1 _ _ _ f2 (by decide)]
  simp only [c2]
  rw [step_calibrating 2 _ _ _ f3 (by decide)]
  simp only [c3]
  rw [step_calibrating 3 _ _ _ f4 (by decide)]
  simp only [c4, calibratedDirection]
  by_cases h1 : hasCone f1.rightYellow = true <;> by_cases h2 : hasCone f2.rightYellow = true <;>
    by_cases h3 : hasCone f3.rightYellow = true <;>
    by_cases h4 : hasCone f4.rightYellow = true <;> simp [h1, h2, h3, h4]

theorem run_append (s : State) (xs ys : List Frame) :
    run s (xs ++ ys) = run (run s xs) ys := by
  simp [run, List.foldl_append]

/-- The fifth iteration steers with the calibrated direction. -/
theorem run_five (f1 f2 f3 f4 f5 : Frame) :
    run initialState [f1, f2, f3, f4, f5] =
      { frameCounter := 5,
        yellowConeExists := if calibratedDirection f1 f2 f3 f4 = 1 then 1 else 0,
        steeringWheelAngle := steering (calibratedDirection f1 f2 f3 f4) 0 f5,
        carDirection := calibratedDirection f1 f2 f3 f4 } := by
  have h := run_append initialState [f1, f2, f3, f4] [f5]
  simp only [List.cons_append, List.nil_append] at h
  rw [h, run_four]
  have c5 : wrapInt32 ((4 : Int) + 1) = 5 := by decide
  simp only [run, List.foldl_cons, List.foldl_nil]
  rw [step_steering 4 _ _ _ f5 (by decide)]
  simp only [c5]

theorem coneCount_ne_zero (contours : List ℚ) (h : hasCone contours = true) :
    coneCount contours ≠ 0 := by
  intro h0
  rw [(coneCount_eq_zero_iff contours).mp h0] at h
  exact Bool.noConfusion h

/-- With a blue cone in the centre region the steering block returns what
the blue loop leaves, whatever the rest of the frame holds. -/
theorem steering_of_blue (d : Direction) (a : ℚ) (f : Frame) (hb : hasCone f.centreBlue = true) :
    steering d.code a f = (blueLoop d.code a f.centreBlue).1 := by
  rw [steering_eq, blueLoop_eq, if_neg (coneCount_ne_zero _ hb)]

theorem step_withDirection_angle (s : State) (d : Direction) (f : Frame)
    (hw : frameSampleSize ≤ wrapInt32 (s.frameCounter + 1)) :
    (step (s.withDirection d) f).steeringWheelAngle = steering d.code s.steeringWheelAngle f := by
  rw [step_of_window (s.withDirection d) f hw]
  rfl

theorem isCone_hundred : isCone 100 = true := by
  rw [isCone_iff, identifiedShape]
  norm_num

theorem hasCone_hundred : hasCone [100] = true := by
  simp [hasCone, isCone_hundred]

theorem coneCount_hundred : coneCount [100] = 1 := by
  simp [coneCount, List.filter, isCone_hundred]

theorem coneCount_three_hundred : coneCount [100, 100, 100] = 3 := by
  simp [coneCount, List.filter, isCone_hundred]

theorem steering_of_count (d : Direction) (a : ℚ) (f : Frame) (n : Nat)
    (h : coneCount f.centreBlue = n + 1) :
    steering d.code a f = (coneResult (blueTurn d) a (n + 1)).1 := by
  rw [steering_eq, h, if_neg (Nat.succ_ne_zero n)]

theorem coneResult_one (t a : ℚ) (ha : inBounds a) : (coneResult t a 1).1 = a - t := by
  have e : coneResult t a 1 = if inBounds a then (a - t, 1) else (0, 1) := rfl
  rw [e, if_pos ha]

theorem coneResult_many (t a : ℚ) (n : Nat) (ha : inBounds a) :
    (coneResult t a (n + 2)).1 = if inBounds (a - t) then a - t else 0 := by
  have e : coneResult t a (n + 2)
      = if inBounds a ∧ inBounds (a - t) then (a - t, 1) else (0, 1) := rfl
  rw [e]
  by_cases h : inBounds (a - t)
  · rw [if_pos (And.intro ha h), if_pos h]
  · rw [if_neg (fun hc => h (And.right hc)), if_neg h]

theorem coneResult_outside (t a : ℚ) (n : Nat) (ha : ¬ inBounds a) :
    (coneResult t a (n + 1)).1 = 0 := by
  match n with
  | 0 =>
    have e : coneResult t a 1 = if inBounds a then (a - t, 1) else (0, 1) := rfl
    rw [e, if_neg ha]
  | k + 1 =>
    have e : coneResult t a (k + 2)
        = if inBounds a ∧ inBounds (a - t) then (a - t, 1) else (0, 1) := rfl
    rw [e, if_neg (fun hc => ha (And.left hc))]

theorem sub_carTurnR (a : ℚ) : a - carTurnR = a - 1 / 40 := rfl

theorem sub_carTurnL (a : ℚ) : a - carTurnL = a + 1 / 40 := by
  unfold carTurnL
  ring

theorem hasCone_cons_false (x : ℚ) (xs : List ℚ) (h : hasCone (x :: xs) = false) :
    ¬ x > identifiedShape ∧ hasCone xs = false := by
  unfold hasCone at h
  rw [List.any_cons, Bool.or_eq_false_iff] at h
  refine ⟨?_, h.2⟩
  intro hc
  rw [(isCone_iff x).mpr hc] at h
  exact Bool.noConfusion h.1

/-- Without a cone the blue loop changes nothing, whatever `carDirection` holds. -/
theorem foldl_blueBody_no_cone (c : Int) (acc : ℚ × Int) (contours : List ℚ)
    (h : hasCone contours = false) : contours.foldl (blueBody c) acc = acc := by
  induction contours with
  | nil => rfl
  | cons x xs ih =>
    have hx := hasCone_cons_false x xs h
    have hb : blueBody c acc x = acc := by
      unfold blueBody
      rw [if_neg hx.1]
    rw [List.foldl_cons, hb, ih hx.2]

/-- Without a cone the yellow loop changes nothing, whatever `carDirection` holds. -/
theorem foldl_yellowBody_no_cone (c : Int) (acc : ℚ × Int) (contours : List ℚ)
    (h : hasCone contours = false) : contours.foldl (yellowBody c) acc = acc := by
  induction contours with
  | nil => rfl
  | cons x xs ih =>
    have hx := hasCone_cons_false x xs h
    have hb : yellowBody c acc x = acc := by
      unfold yellowBody
      rw [if_neg hx.1]
    rw [List.foldl_cons, hb, ih hx.2]

/-- A colour loop that met a cone leaves the stepped angle or zero. -/
theorem coneResult_succ_cases (t a : ℚ) (n : Nat) :
    (coneResult t a (n + 1)).1 = a - t ∨ (coneResult t a (n + 1)).1 = 0 := by
  by_cases ha : inBounds a
  · match n with
    | 0 => exact Or.inl (coneResult_one t a ha)
    | k + 1 =>
      rw [coneResult_many t a k ha]
      by_cases hb : inBounds (a - t)
      · rw [if_pos hb]
        exact Or.inl rfl
      · rw [if_neg hb]
        exact Or.inr rfl
  · exact Or.inr (coneResult_outside t a n ha)

theorem step_frameCounter (s : State) (f : Frame) :
    (step s f).frameCounter = wrapInt32 (s.frameCounter + 1) := by
  by_cases hc : wrapInt32 (s.frameCounter + 1) < frameSampleSize
  · rw [step_of_calibration s f hc]
  · rw [step_of_window s f (not_lt.mp hc)]

theorem wrapInt32_of_small (x : Int) (h0 : 0 ≤ x) (h1 : x < 2147483648) : wrapInt32 x = x := by
  unfold wrapInt32
  omega

/-- Counting from the initial state, the counter is the number of frames seen
as long as that number fits. -/
theorem run_frameCounter (s : State) (frames : List Frame) (h0 : 0 ≤ s.frameCounter)
    (h1 : s.frameCounter + frames.length < 2147483648) :
    (run s frames).frameCounter = s.frameCounter + frames.length := by
  induction frames generalizing s with
  | nil => simp [run]
  | cons f fs ih =>
    have hl : ((f :: fs).length : Int) = (fs.length : Int) + 1 := by simp
    rw [hl] at h1
    have hs : (step s f).frameCounter = s.frameCounter + 1 := by
      rw [step_frameCounter, wrapInt32_of_small _ (by omega) (by omega)]
    have h := ih (step s f) (by rw [hs]; omega) (by rw [hs]; omega)
    simp only [run, List.foldl_cons] at h ⊢
    rw [h, hs, hl]
    ring

/-- No iteration takes `carDirection` away from the clockwise value. -/
theorem step_keeps_clockwise (s : State) (f : Frame) (h : s.carDirection = 1) :
    (step s f).carDirection = 1 := by
  by_cases hc : wrapInt32 (s.frameCounter + 1) < frameSampleSize
  · rw [step_of_calibration s f hc]
    simp only [h, ite_self]
  · rw [step_of_window s f (not_lt.mp hc)]
    exact h

theorem run_keeps_clockwise (s : State) (frames : List Frame) (h : s.carDirection = 1) :
    (run s frames).carDirection = 1 := by
  induction frames generalizing s with
  | nil => exact h
  | cons f fs ih =>
    have h2 := ih (step s f) (step_keeps_clockwise s f h)
    simpa only [run, List.foldl_cons] using h2

/-! ## The claims -/

/-- C1, evaluated at the failing input.  The calibration test
`frameCounter < frameSampleSize` is made after `frameCounter++`, so only the
iterations with counter 1 to 4 calibrate.  Here frames 1 to 4 are empty and
frame 5 holds a yellow cone in the right region: after five iterations the
counter is 5 and `carDirection` still holds the counterclockwise value.  For
any five frames the direction after the fifth is the one calibrated on the
first four. -/
theorem calibration_skips_fifth_frame :
    hasCone rightConeFrame.rightYellow = true ∧
    (run initialState
      [emptyFrame, emptyFrame, emptyFrame, emptyFrame, rightConeFrame]).frameCounter = 5 ∧
    (run initialState
      [emptyFrame, emptyFrame, emptyFrame, emptyFrame, rightConeFrame]).carDirection
        = Direction.CounterClockwise.code ∧
    (∀ f1 f2 f3 f4 f5 : Frame,
      (run initialState [f1, f2, f3, f4, f5]).carDirection
        = calibratedDirection f1 f2 f3 f4) := by
  refine ⟨hasCone_hundred, ?_, ?_, ?_⟩
  · rw [run_five]
  · rw [run_five]
    decide
  · intro f1 f2 f3 f4 f5
    rw [run_five]

/-- C2.  Blue priority: in the steering window (counter at least 5 after the
increment), under either direction and from any prior angle, two frames with
the same blue contours, one of them a cone, give the same steering angle
whatever their yellow contours are; that angle is the one the blue loop
leaves, the yellow loop is not run. -/
theorem blue_priority (s : State) (d : Direction) (f g : Frame)
    (hw : frameSampleSize ≤ wrapInt32 (s.frameCounter + 1))
    (hb : hasCone f.centreBlue = true) (hfg : g.centreBlue = f.centreBlue) :
    (step (s.withDirection d) f).steeringWheelAngle
        = (step (s.withDirection d) g).steeringWheelAngle ∧
      (step (s.withDirection d) f).steeringWheelAngle
        = (blueLoop d.code s.steeringWheelAngle f.centreBlue).1 := by
  have hg : hasCone g.centreBlue = true := by rw [hfg]; exact hb
  rw [step_withDirection_angle s d f hw, step_withDirection_angle s d g hw,
    steering_of_blue d _ f hb, steering_of_blue d _ g hg, hfg]
  exact ⟨rfl, rfl⟩

theorem blue_priority_witness :
    (step ((windowState 0).withDirection Direction.Clockwise) blueConeFrame).steeringWheelAngle
        = (step ((windowState 0).withDirection Direction.Clockwise)
            bothConesFrame).steeringWheelAngle ∧
      (step ((windowState 0).withDirection Direction.Clockwise) blueConeFrame).steeringWheelAngle
        = (blueLoop Direction.Clockwise.code (windowState 0).steeringWheelAngle
            blueConeFrame.centreBlue).1 :=
  blue_priority (windowState 0) Direction.Clockwise blueConeFrame bothConesFrame
    (by decide) hasCone_hundred rfl

/-- C3, counterexample.  Prior angle -0.29 lies strictly inside (-0.3, 0.3)
and the direction is clockwise.  With three blue cones in a steering-window
frame the first cone steps the angle to -0.315, which is beyond the lower
bound, so the second cone takes the reset branch: the result is 0.0 and not
-0.29 - 0.025. -/
theorem three_blue_cones_counterexample :
    steeringMin < (windowState (-(29 / 100))).steeringWheelAngle ∧
    (windowState (-(29 / 100))).steeringWheelAngle < steeringMax ∧
    frameSampleSize ≤ wrapInt32 ((windowState (-(29 / 100))).frameCounter + 1) ∧
    coneCount threeBlueFrame.centreBlue = 3 ∧
    (step ((windowState (-(29 / 100))).withDirection Direction.Clockwise)
      threeBlueFrame).steeringWheelAngle = 0 ∧
    (step ((windowState (-(29 / 100))).withDirection Direction.Clockwise)
      threeBlueFrame).steeringWheelAngle
        ≠ (windowState (-(29 / 100))).steeringWheelAngle - 1 / 40 := by
  have hw : frameSampleSize ≤ wrapInt32 ((windowState (-(29 / 100))).frameCounter + 1) := by
    decide
  have hr : (step ((windowState (-(29 / 100))).withDirection Direction.Clockwise)
      threeBlueFrame).steeringWheelAngle = 0 := by
    rw [step_withDirection_angle _ _ _ hw, steering_eq]
    simp only [threeBlueFrame, coneCount_three_hundred, windowState, coneResult, blueTurn,
      inBounds, steeringMin, steeringMax, carTurnR]
    norm_num
  refine ⟨?_, ?_, hw, coneCount_three_hundred, hr, ?_⟩
  · simp only [windowState, steeringMin]
    norm_num
  · simp only [windowState, steeringMax]
    norm_num
  · rw [hr]
    simp only [windowState]
    norm_num

/-- C3, amended.  In the steering window, from a prior angle strictly inside
(-0.3, 0.3), a frame with three blue cones in the centre region yields the
prior angle with the increment applied once (prior - 0.025 when clockwise,
prior + 0.025 when counterclockwise) provided that stepped angle is still
strictly inside the bounds; otherwise the second cone resets the angle to
0.0.  The increment is never applied two or three times. -/
theorem three_blue_cones (s : State) (f : Frame)
    (hw : frameSampleSize ≤ wrapInt32 (s.frameCounter + 1))
    (hlo : steeringMin < s.steeringWheelAngle) (hhi : s.steeringWheelAngle < steeringMax)
    (h3 : coneCount f.centreBlue = 3) :
    (step (s.withDirection Direction.Clockwise) f).steeringWheelAngle
        = (if steeringMin < s.steeringWheelAngle - 1 / 40
            then s.steeringWheelAngle - 1 / 40 else 0) ∧
      (step (s.withDirection Direction.CounterClockwise) f).steeringWheelAngle
        = (if s.steeringWheelAngle + 1 / 40 < steeringMax
            then s.steeringWheelAngle + 1 / 40 else 0) := by
  have ha : inBounds s.steeringWheelAngle := ⟨hlo, hhi⟩
  rw [step_withDirection_angle _ _ _ hw, step_withDirection_angle _ _ _ hw,
    steering_of_count _ _ f 2 h3, steering_of_count _ _ f 2 h3,
    coneResult_many _ _ 1 ha, coneResult_many _ _ 1 ha]
  simp only [blueTurn, sub_carTurnR, sub_carTurnL]
  unfold steeringMin at hlo
  unfold steeringMax at hhi
  constructor
  · refine if_congr ?_ rfl rfl
    unfold inBounds steeringMin steeringMax
    constructor
    · intro h
      exact h.1
    · intro h
      exact ⟨h, by linarith⟩
  · refine if_congr ?_ rfl rfl
    unfold inBounds steeringMin steeringMax
    constructor
    · intro h
      exact h.2
    · intro h
      exact ⟨by linarith, h⟩

theorem three_blue_cones_witness :
    (step ((windowState 0).withDirection Direction.Clockwise)
        threeBlueFrame).steeringWheelAngle
        = (if steeringMin < (windowState 0).steeringWheelAngle - 1 / 40
            then (windowState 0).steeringWheelAngle - 1 / 40 else 0) ∧
      (step ((windowState 0).withDirection Direction.CounterClockwise)
        threeBlueFrame).steeringWheelAngle
        = (if (windowState 0).steeringWheelAngle + 1 / 40 < steeringMax
            then (windowState 0).steeringWheelAngle + 1 / 40 else 0) :=
  three_blue_cones (windowState 0) threeBlueFrame (by decide)
    (by simp [windowState, steeringMin]) (by simp [windowState, steeringMax])
    coneCount_three_hundred

/-- C4.  Boundary reset: in the steering window, under either direction, from
a prior angle at or beyond a bound (at most -0.3, the minimum included, or at
least 0.3), a frame with at least one blue cone in the centre region leaves
the steering angle at exactly 0.0. -/
theorem boundary_reset (s : State) (d : Direction) (f : Frame)
    (hw : frameSampleSize ≤ wrapInt32 (s.frameCounter + 1))
    (ha : s.steeringWheelAngle ≤ steeringMin ∨ steeringMax ≤ s.steeringWheelAngle)
    (hb : hasCone f.centreBlue = true) :
    (step (s.withDirection d) f).steeringWheelAngle = 0 := by
  have hout : ¬ inBounds s.steeringWheelAngle := by
    intro hin
    cases ha with
    | inl h => exact absurd hin.1 (not_lt.mpr h)
    | inr h => exact absurd hin.2 (not_lt.mpr h)
  have hn : coneCount f.centreBlue ≠ 0 := coneCount_ne_zero _ hb
  obtain ⟨n, hn1⟩ := Nat.exists_eq_succ_of_ne_zero hn
  rw [step_withDirection_angle _ _ _ hw, steering_of_count _ _ f n hn1,
    coneResult_outside _ _ n hout]

theorem boundary_reset_witness :
    (step ((windowState (-(3 / 10))).withDirection Direction.Clockwise)
      blueConeFrame).steeringWheelAngle = 0 :=
  boundary_reset (windowState (-(3 / 10))) Direction.Clockwise blueConeFrame (by decide)
    (Or.inl (le_refl _)) hasCone_hundred

/-- C5.  Blue corrective step: in the steering window, from a prior angle
strictly inside (-0.3, 0.3), a frame with exactly one blue cone in the centre
region gives prior - carTurnR = prior - 0.025 when the direction is clockwise
and prior - carTurnL = prior + 0.025 when it is counterclockwise.  In
particular, when frames 1 to 4 hold no yellow cone in the right region the
direction after frame 5 is counterclockwise, and if the angle after frame 5 is
0.0 then the angle after such a sixth frame is 0.025. -/
theorem blue_corrective_step (s : State) (f : Frame)
    (hw : frameSampleSize ≤ wrapInt32 (s.frameCounter + 1))
    (hlo : steeringMin < s.steeringWheelAngle) (hhi : s.steeringWheelAngle < steeringMax)
    (h1 : coneCount f.centreBlue = 1) :
    (step (s.withDirection Direction.Clockwise) f).steeringWheelAngle
        = s.steeringWheelAngle - carTurnR ∧
      s.steeringWheelAngle - carTurnR = s.steeringWheelAngle - 1 / 40 ∧
      (step (s.withDirection Direction.CounterClockwise) f).steeringWheelAngle
        = s.steeringWheelAngle - carTurnL ∧
      s.steeringWheelAngle - carTurnL = s.steeringWheelAngle + 1 / 40 ∧
      (∀ f1 f2 f3 f4 f5 : Frame,
        hasCone f1.rightYellow = false → hasCone f2.rightYellow = false →
        hasCone f3.rightYellow = false → hasCone f4.rightYellow = false →
        (run initialState [f1, f2, f3, f4, f5]).carDirection
            = Direction.CounterClockwise.code ∧
          ((run initialState [f1, f2, f3, f4, f5]).steeringWheelAngle = 0 →
            (run initialState [f1, f2, f3, f4, f5, f]).steeringWheelAngle = 1 / 40)) := by
  have ha : inBounds s.steeringWheelAngle := ⟨hlo, hhi⟩
  refine ⟨?_, sub_carTurnR _, ?_, sub_carTurnL _, ?_⟩
  · rw [step_withDirection_angle _ _ _ hw, steering_of_count _ _ f 0 h1,
      coneResult_one _ _ ha]
    rfl
  · rw [step_withDirection_angle _ _ _ hw, steering_of_count _ _ f 0 h1,
      coneResult_one _ _ ha]
    rfl
  · intro f1 f2 f3 f4 f5 n1 n2 n3 n4
    have hd : calibratedDirection f1 f2 f3 f4 = Direction.CounterClockwise.code := by
      simp [calibratedDirection, n1, n2, n3, n4, Direction.code]
    have happ := run_append initialState [f1, f2, f3, f4, f5] [f]
    simp only [List.cons_append, List.nil_append] at happ
    rw [happ, run_five, hd]
    refine ⟨rfl, ?_⟩
    intro h0
    simp only at h0
    simp only [run, List.foldl_cons, List.foldl_nil]
    rw [step_steering 5 _ _ _ f (by decide), h0]
    simp only
    rw [steering_of_count Direction.CounterClockwise 0 f 0 h1,
      coneResult_one _ _ inBounds_zero]
    simp only [blueTurn, sub_carTurnL]
    norm_num

theorem blue_corrective_step_witness :
    (step ((windowState 0).withDirection Direction.Clockwise) blueConeFrame).steeringWheelAngle
        = (windowState 0).steeringWheelAngle - carTurnR ∧
      (step ((windowState 0).withDirection Direction.CounterClockwise)
        blueConeFrame).steeringWheelAngle = (windowState 0).steeringWheelAngle - carTurnL ∧
      (run initialState [emptyFrame, emptyFrame, emptyFrame, emptyFrame, emptyFrame,
        blueConeFrame]).steeringWheelAngle = 1 / 40 :=
  have h := blue_corrective_step (windowState 0) blueConeFrame (by decide)
    (by simp [windowState, steeringMin]) (by simp [windowState, steeringMax])
    coneCount_hundred
  have hp := h.2.2.2.2 emptyFrame emptyFrame emptyFrame emptyFrame emptyFrame rfl rfl rfl rfl
  ⟨h.1, h.2.2.1, hp.2 (by rw [run_five]; simp [emptyFrame, steering, blueLoop, yellowLoop])⟩

/-- C6, counterexample.  Take `L` empty.  Under the clockwise direction the
frame without any contour (no blue cone, yellow contours `L`) resets the angle
0 to 0.  A frame with blue contours `L` and one yellow cone, under the
counterclockwise direction, finds no blue cone, runs its own yellow loop and
steps the angle 0 to -1/40.  The two angles differ. -/
theorem yellow_mirrors_blue_counterexample :
    hasCone emptyFrame.centreBlue = false ∧
    yellowConeFrame.centreBlue = emptyFrame.centreYellow ∧
    frameSampleSize ≤ wrapInt32 ((windowState 0).frameCounter + 1) ∧
    (step ((windowState 0).withDirection Direction.Clockwise)
      emptyFrame).steeringWheelAngle = 0 ∧
    (step ((windowState 0).withDirection Direction.Clockwise.opposite)
      yellowConeFrame).steeringWheelAngle = -(1 / 40) ∧
    (step ((windowState 0).withDirection Direction.Clockwise) emptyFrame).steeringWheelAngle
      ≠ (step ((windowState 0).withDirection Direction.Clockwise.opposite)
          yellowConeFrame).steeringWheelAngle := by
  have hw : frameSampleSize ≤ wrapInt32 ((windowState 0).frameCounter + 1) := by decide
  have h1 : (step ((windowState 0).withDirection Direction.Clockwise)
      emptyFrame).steeringWheelAngle = 0 := by
    rw [step_withDirection_angle _ _ _ hw, steering_eq]
    rfl
  have h2 : (step ((windowState 0).withDirection Direction.Clockwise.opposite)
      yellowConeFrame).steeringWheelAngle = -(1 / 40) := by
    have hb : coneCount yellowConeFrame.centreBlue = 0 := rfl
    have hy : coneCount yellowConeFrame.centreYellow = 1 := coneCount_hundred
    rw [step_withDirection_angle _ _ _ hw, steering_eq, if_pos hb, hy,
      if_neg (Nat.succ_ne_zero 0),
      coneResult_one _ _ (show inBounds (windowState 0).steeringWheelAngle from inBounds_zero)]
    simp only [Direction.opposite, yellowTurn, sub_carTurnR, windowState]
    norm_num
  refine ⟨rfl, rfl, hw, h1, h2, ?_⟩
  rw [h1, h2]
  norm_num

/-- C6, amended.  Yellow is blue with the directions swapped.  The yellow
loop under direction `d` computes, on every contour list and from every
angle, what the blue loop computes under the opposite direction.  Hence, in
the steering window, a frame `f` without blue cone and with yellow contours
`L` gives under `d` the same angle as a frame `g` with blue contours `L` gives
under the opposite direction, provided `L` holds a cone or `g` holds no yellow
cone. -/
theorem yellow_mirrors_blue (s : State) (d : Direction) (f g : Frame)
    (hw : frameSampleSize ≤ wrapInt32 (s.frameCounter + 1))
    (hb : hasCone f.centreBlue = false) (hL : g.centreBlue = f.centreYellow)
    (hg : hasCone g.centreBlue = true ∨ hasCone g.centreYellow = false) :
    (step (s.withDirection d) f).steeringWheelAngle
        = (step (s.withDirection d.opposite) g).steeringWheelAngle ∧
      (∀ (a : ℚ) (L : List ℚ), yellowLoop d.code a L = blueLoop d.opposite.code a L) := by
  constructor
  · rw [step_withDirection_angle _ _ _ hw, step_withDirection_angle _ _ _ hw, steering_eq,
      steering_eq, hL, if_pos ((coneCount_eq_zero_iff _).mpr hb), yellowTurn_eq]
    by_cases hc : coneCount f.centreYellow = 0
    · have hgy : hasCone g.centreYellow = false := by
        cases hg with
        | inl h =>
          rw [hL, (coneCount_eq_zero_iff _).mp hc] at h
          exact Bool.noConfusion h
        | inr h => exact h
      rw [if_pos hc, if_pos hc, if_pos ((coneCount_eq_zero_iff _).mpr hgy)]
    · rw [if_neg hc, if_neg hc]
  · intro a L
    rw [yellowLoop_eq, blueLoop_eq, yellowTurn_eq]

theorem yellow_mirrors_blue_witness :
    (step ((windowState 0).withDirection Direction.Clockwise)
        yellowConeFrame).steeringWheelAngle
      = (step ((windowState 0).withDirection Direction.Clockwise.opposite)
        blueConeFrame).steeringWheelAngle :=
  (yellow_mirrors_blue (windowState 0) Direction.Clockwise yellowConeFrame blueConeFrame
    (by decide) rfl rfl (Or.inl hasCone_hundred)).1

/-- C7.  No cone resets to straight ahead: in the steering window, from any
state (any prior angle, any `carDirection`), a frame whose blue and yellow
centre-region contour lists hold no contour with area above 60 (empty lists
included) leaves the steering angle at exactly 0.0. -/
theorem no_cone_reset (s : State) (f : Frame)
    (hw : frameSampleSize ≤ wrapInt32 (s.frameCounter + 1))
    (hb : hasCone f.centreBlue = false) (hy : hasCone f.centreYellow = false) :
    (step s f).steeringWheelAngle = 0 := by
  rw [step_of_window s f hw]
  simp only [steering, blueLoop, yellowLoop, foldl_blueBody_no_cone _ _ _ hb,
    foldl_yellowBody_no_cone _ _ _ hy]
  simp

theorem no_cone_reset_witness :
    (step (windowState (1 / 10))
      { rightYellow := [], centreBlue := [60], centreYellow := [] }).steeringWheelAngle = 0 :=
  no_cone_reset (windowState (1 / 10))
    { rightYellow := [], centreBlue := [60], centreYellow := [] } (by decide)
    (by simp [hasCone, isCone, identifiedShape]) rfl

/-- C8.  Steering totality: in the steering window, for every prior angle
`a`, either direction and every pair of blue and yellow centre-region contour
lists, the iteration yields an angle, and it is `a - 0.025`, `a + 0.025` or
`0.0`. -/
theorem steering_total (s : State) (d : Direction) (f : Frame)
    (hw : frameSampleSize ≤ wrapInt32 (s.frameCounter + 1)) :
    (step (s.withDirection d) f).steeringWheelAngle = s.steeringWheelAngle - 1 / 40 ∨
      (step (s.withDirection d) f).steeringWheelAngle = s.steeringWheelAngle + 1 / 40 ∨
      (step (s.withDirection d) f).steeringWheelAngle = 0 := by
  have key : ∀ (t : ℚ) (n : Nat), (t = carTurnR ∨ t = carTurnL) →
      (coneResult t s.steeringWheelAngle (n + 1)).1 = s.steeringWheelAngle - 1 / 40 ∨
      (coneResult t s.steeringWheelAngle (n + 1)).1 = s.steeringWheelAngle + 1 / 40 ∨
      (coneResult t s.steeringWheelAngle (n + 1)).1 = 0 := by
    intro t n ht
    cases coneResult_succ_cases t s.steeringWheelAngle n with
    | inl h =>
      cases ht with
      | inl e => exact Or.inl (by rw [h, e, sub_carTurnR])
      | inr e => exact Or.inr (Or.inl (by rw [h, e, sub_carTurnL]))
    | inr h => exact Or.inr (Or.inr h)
  have hbt : blueTurn d = carTurnR ∨ blueTurn d = carTurnL := by
    cases d
    · exact Or.inl rfl
    · exact Or.inr rfl
  have hyt : yellowTurn d = carTurnR ∨ yellowTurn d = carTurnL := by
    cases d
    · exact Or.inr rfl
    · exact Or.inl rfl
  rw [step_withDirection_angle _ _ _ hw, steering_eq]
  by_cases hb : coneCount f.centreBlue = 0
  · rw [if_pos hb]
    by_cases hy : coneCount f.centreYellow = 0
    · rw [if_pos hy]
      exact Or.inr (Or.inr rfl)
    · rw [if_neg hy]
      obtain ⟨n, hn⟩ := Nat.exists_eq_succ_of_ne_zero hy
      rw [hn]
      exact key _ n hyt
  · rw [if_neg hb]
    obtain ⟨n, hn⟩ := Nat.exists_eq_succ_of_ne_zero hb
    rw [hn]
    exact key _ n hbt

theorem steering_total_witness :
    (step ((windowState 0).withDirection Direction.CounterClockwise)
        bothConesFrame).steeringWheelAngle = (windowState 0).steeringWheelAngle - 1 / 40 ∨
      (step ((windowState 0).withDirection Direction.CounterClockwise)
        bothConesFrame).steeringWheelAngle = (windowState 0).steeringWheelAngle + 1 / 40 ∨
      (step ((windowState 0).withDirection Direction.CounterClockwise)
        bothConesFrame).steeringWheelAngle = 0 :=
  steering_total (windowState 0) Direction.CounterClockwise bothConesFrame (by decide)

/-- C9.  Direction is frozen.  (1) An iteration of the calibration window
(counter below 5 after the increment) whose frame holds a yellow cone in the
right region sets the direction to clockwise.  (2) Once clockwise, the
direction is clockwise after every further sequence of frames, so it is never
set back to counterclockwise.  (3) An iteration with counter at least 5, the
one exactly at 5 included, leaves the direction as it was.  (4) From the
initial state, when one of frames 1 to 4 holds such a cone, the direction is
clockwise after that frame and after every continuation. -/
theorem direction_frozen :
    (∀ (s : State) (f : Frame), wrapInt32 (s.frameCounter + 1) < frameSampleSize →
        hasCone f.rightYellow = true →
        (step s f).carDirection = Direction.Clockwise.code) ∧
      (∀ (s : State) (frames : List Frame), s.carDirection = Direction.Clockwise.code →
        (run s frames).carDirection = Direction.Clockwise.code) ∧
      (∀ (s : State) (f : Frame), frameSampleSize ≤ wrapInt32 (s.frameCounter + 1) →
        (step s f).carDirection = s.carDirection) ∧
      (∀ (before : List Frame) (f : Frame) (after : List Frame), before.length < 4 →
        hasCone f.rightYellow = true →
        (run initialState (before ++ f :: after)).carDirection = Direction.Clockwise.code) := by
  have h1 : ∀ (s : State) (f : Frame), wrapInt32 (s.frameCounter + 1) < frameSampleSize →
      hasCone f.rightYellow = true → (step s f).carDirection = Direction.Clockwise.code := by
    intro s f hc hy
    rw [step_of_calibration s f hc]
    simp only [hy, if_true]
    rfl
  refine ⟨h1, ?_, ?_, ?_⟩
  · intro s frames h
    exact run_keeps_clockwise s frames h
  · intro s f hw
    rw [step_of_window s f hw]
  · intro before f after hlen hy
    have hcount : (run initialState before).frameCounter = (before.length : Int) := by
      have h := run_frameCounter initialState before (by decide)
        (by simp only [initialState]; omega)
      rw [h]
      simp [initialState]
    have hc : wrapInt32 ((run initialState before).frameCounter + 1) < frameSampleSize := by
      rw [hcount, wrapInt32_of_small _ (by omega) (by omega)]
      unfold frameSampleSize
      omega
    have hstep := h1 (run initialState before) f hc hy
    have e : run initialState (before ++ f :: after)
        = run (step (run initialState before) f) after := by
      simp [run, List.foldl_append]
    rw [e]
    exact run_keeps_clockwise _ after hstep

theorem direction_frozen_witness :
    (run initialState ([emptyFrame, emptyFrame] ++ rightConeFrame ::
      [emptyFrame, emptyFrame, yellowConeFrame, blueConeFrame])).carDirection
        = Direction.Clockwise.code :=
  direction_frozen.2.2.2 [emptyFrame, emptyFrame] rightConeFrame
    [emptyFrame, emptyFrame, yellowConeFrame, blueConeFrame] (by decide) hasCone_hundred

/-- C10, evaluated at the failing input.  With the four mandatory keys
present and the shared memory not valid, the loop is not entered and `main`
returns 0: `retCode = 0` stands after the `if` on the attachment, not inside
it.  The sibling path of a missing key does return the initial 1. -/
theorem attach_failure_returns_zero :
    (∀ frames : List Frame,
        main presentArguments false frames = { retCode := 0, loop := none }) ∧
      (∀ frames : List Frame,
        (main { cid := 0, name := 1, width := 1, height := 1 } false frames).retCode = 1) := by
  constructor
  · intro frames
    rfl
  · intro frames
    rfl

/-! ## Range of the steering angle -/

/-- A colour loop that met a cone leaves the stepped angle only from an angle
inside the bounds; otherwise it leaves zero. -/
theorem coneResult_succ_inBounds (t a : ℚ) (n : Nat) :
    ((coneResult t a (n + 1)).1 = a - t ∧ inBounds a) ∨ (coneResult t a (n + 1)).1 = 0 := by
  by_cases ha : inBounds a
  · cases coneResult_succ_cases t a n with
    | inl h => exact Or.inl ⟨h, ha⟩
    | inr h => exact Or.inr h
  · exact Or.inr (coneResult_outside t a n ha)

/-- The steering block steps by 1/40 only from an angle inside the bounds. -/
theorem steering_cases (d : Direction) (a : ℚ) (f : Frame) :
    (steering d.code a f = a - 1 / 40 ∧ inBounds a) ∨
      (steering d.code a f = a + 1 / 40 ∧ inBounds a) ∨ steering d.code a f = 0 := by
  have key : ∀ (t : ℚ) (n : Nat), (t = carTurnR ∨ t = carTurnL) →
      ((coneResult t a (n + 1)).1 = a - 1 / 40 ∧ inBounds a) ∨
      ((coneResult t a (n + 1)).1 = a + 1 / 40 ∧ inBounds a) ∨
      (coneResult t a (n + 1)).1 = 0 := by
    intro t n ht
    cases coneResult_succ_inBounds t a n with
    | inl h =>
      cases ht with
      | inl e => exact Or.inl ⟨by rw [h.1, e, sub_carTurnR], h.2⟩
      | inr e => exact Or.inr (Or.inl ⟨by rw [h.1, e, sub_carTurnL], h.2⟩)
    | inr h => exact Or.inr (Or.inr h)
  have hbt : blueTurn d = carTurnR ∨ blueTurn d = carTurnL := by
    cases d
    · exact Or.inl rfl
    · exact Or.inr rfl
  have hyt : yellowTurn d = carTurnR ∨ yellowTurn d = carTurnL := by
    cases d
    · exact Or.inr rfl
    · exact Or.inl rfl
  rw [steering_eq]
  by_cases hb : coneCount f.centreBlue = 0
  · rw [if_pos hb]
    by_cases hy : coneCount f.centreYellow = 0
    · rw [if_pos hy]
      exact Or.inr (Or.inr rfl)
    · rw [if_neg hy]
      obtain ⟨n, hn⟩ := Nat.exists_eq_succ_of_ne_zero hy
      rw [hn]
      exact key _ n hyt
  · rw [if_neg hb]
    obtain ⟨n, hn⟩ := Nat.exists_eq_succ_of_ne_zero hb
    rw [hn]
    exact key _ n hbt

theorem onGrid_zero : onGrid 0 := ⟨0, by decide, by decide, by simp⟩

/-- From a grid angle inside the bounds both neighbours are on the grid. -/
theorem onGrid_neighbours (a : ℚ) (hg : onGrid a) (hb : inBounds a) :
    onGrid (a - 1 / 40) ∧ onGrid (a + 1 / 40) := by
  obtain ⟨k, _, _, hk⟩ := hg
  unfold inBounds steeringMin steeringMax at hb
  rw [hk] at hb
  have h1 : (-12 : ℚ) < (k : ℚ) := by linarith [hb.1]
  have h2 : (k : ℚ) < 12 := by linarith [hb.2]
  have h3 : (-12 : Int) < k := by exact_mod_cast h1
  have h4 : k < 12 := by exact_mod_cast h2
  constructor
  · refine ⟨k - 1, by omega, by omega, ?_⟩
    rw [hk]
    push_cast
    ring
  · refine ⟨k + 1, by omega, by omega, ?_⟩
    rw [hk]
    push_cast
    ring

/-- One loop iteration keeps the direction in its two values and the angle
on the grid. -/
theorem step_onGrid (s : State) (f : Frame)
    (hd : s.carDirection = 1 ∨ s.carDirection = -1) (hg : onGrid s.steeringWheelAngle) :
    ((step s f).carDirection = 1 ∨ (step s f).carDirection = -1) ∧
      onGrid (step s f).steeringWheelAngle := by
  by_cases hc : wrapInt32 (s.frameCounter + 1) < frameSampleSize
  · rw [step_of_calibration s f hc]
    refine ⟨?_, hg⟩
    by_cases hy : hasCone f.rightYellow = true
    · simp only [hy, if_true]
      exact Or.inl trivial
    · simp only [hy]
      exact hd
  · rw [step_of_window s f (not_lt.mp hc)]
    refine ⟨hd, ?_⟩
    have hcases : ∃ d : Direction, s.carDirection = d.code := by
      cases hd with
      | inl h => exact ⟨Direction.Clockwise, h⟩
      | inr h => exact ⟨Direction.CounterClockwise, h⟩
    obtain ⟨d, hdc⟩ := hcases
    simp only [hdc]
    cases steering_cases d s.steeringWheelAngle f with
    | inl h =>
      rw [h.1]
      exact (onGrid_neighbours _ hg h.2).1
    | inr h =>
      cases h with
      | inl h =>
        rw [h.1]
        exact (onGrid_neighbours _ hg h.2).2
      | inr h =>
        rw [h]
        exact onGrid_zero

theorem run_onGrid (s : State) (frames : List Frame)
    (hd : s.carDirection = 1 ∨ s.carDirection = -1) (hg : onGrid s.steeringWheelAngle) :
    onGrid (run s frames).steeringWheelAngle := by
  induction frames generalizing s with
  | nil => exact hg
  | cons f fs ih =>
    have h := step_onGrid s f hd hg
    have h2 := ih (step s f) h.1 h.2
    simpa only [run, List.foldl_cons] using h2

theorem run_singleton (s : State) (f : Frame) : run s [f] = step s f := rfl

/-- After the calibration window, `n` frames with one blue cone each raise the
angle from zero to `n / 40` under the counterclockwise direction, for `n` up
to twelve. -/
theorem run_blue_cones (n : Nat) (hn : n ≤ 12) :
    run { frameCounter := 4, yellowConeExists := 0, steeringWheelAngle := 0, carDirection := -1 }
        (List.replicate n blueConeFrame) =
      { frameCounter := 4 + (n : Int), yellowConeExists := 0,
        steeringWheelAngle := (n : ℚ) / 40, carDirection := -1 } := by
  induction n with
  | zero => simp [run]
  | succ k ih =>
    have hk : k ≤ 11 := by omega
    have hwrap : wrapInt32 (4 + (k : Int) + 1) = 4 + (k : Int) + 1 :=
      wrapInt32_of_small _ (by omega) (by omega)
    have hw : frameSampleSize ≤ wrapInt32 (4 + (k : Int) + 1) := by
      rw [hwrap]
      unfold frameSampleSize
      omega
    have hin : inBounds ((k : ℚ) / 40) := by
      have h0 : (0 : ℚ) ≤ (k : ℚ) := Nat.cast_nonneg k
      have h1 : (k : ℚ) ≤ 11 := by exact_mod_cast hk
      unfold inBounds steeringMin steeringMax
      constructor <;> linarith
    have hs : steering (-1) ((k : ℚ) / 40) blueConeFrame = (k : ℚ) / 40 + 1 / 40 := by
      have h := steering_of_count Direction.CounterClockwise ((k : ℚ) / 40) blueConeFrame 0
        coneCount_hundred
      rw [coneResult_one _ _ hin] at h
      rw [← sub_carTurnL]
      exact h
    have hc : (4 : Int) + (k : Int) + 1 = 4 + ((k + 1 : Nat) : Int) := by
      push_cast
      ring
    have ha : (k : ℚ) / 40 + 1 / 40 = ((k + 1 : Nat) : ℚ) / 40 := by
      push_cast
      ring
    rw [List.replicate_succ', run_append, ih (by omega), run_singleton,
      step_steering _ _ _ _ blueConeFrame hw, hwrap, hs, hc, ha]

/-- C11, counterexample.  In exact arithmetic, four empty calibration frames
followed by twelve frames with one blue cone each leave the direction
counterclockwise and step the angle twelve times by 1/40 from 0, to exactly
3/10: the angle reaches the upper bound and is not strictly below it. -/
theorem angle_reaches_bound_counterexample :
    (run initialState twelveBlueFrames).steeringWheelAngle = steeringMax ∧
      ¬ (run initialState twelveBlueFrames).steeringWheelAngle < steeringMax := by
  have hd : calibratedDirection emptyFrame emptyFrame emptyFrame emptyFrame = -1 := by decide
  have h : (run initialState twelveBlueFrames).steeringWheelAngle = steeringMax := by
    unfold twelveBlueFrames
    rw [run_append, run_four, hd]
    have e := run_blue_cones 12 (le_refl 12)
    simp only [show ((-1 : Int) = 1) = False from by decide, if_false]
    rw [e]
    simp only [steeringMax]
    norm_num
  exact ⟨h, by rw [h]; exact lt_irrefl _⟩

/-- C11, amended.  In exact arithmetic, from the initial state, after every
frame of every frame sequence the steering angle lies in the closed interval
from -0.3 to 0.3 and is an integer multiple of 0.025: it may reach a bound
exactly and never passes it. -/
theorem angle_within_closed_bounds (frames : List Frame) :
    steeringMin ≤ (run initialState frames).steeringWheelAngle ∧
      (run initialState frames).steeringWheelAngle ≤ steeringMax ∧
      (∃ k : Int, (run initialState frames).steeringWheelAngle = k / 40) := by
  have hg := run_onGrid initialState frames (Or.inr rfl) onGrid_zero
  obtain ⟨k, h1, h2, hk⟩ := hg
  have c1 : (-12 : ℚ) ≤ (k : ℚ) := by exact_mod_cast h1
  have c2 : (k : ℚ) ≤ 12 := by exact_mod_cast h2
  refine ⟨?_, ?_, ⟨k, hk⟩⟩
  · rw [hk]
    unfold steeringMin
    linarith
  · rw [hk]
    unfold steeringMax
    linarith

end TemplateOpencv
